import Mathlib

/-!
# Verification of the rate-limiting core (`src/core/rate_limiting.py`)

This file gives a shallow embedding of the five rate-limiting dependencies of
`src/core/rate_limiting.py` and proves / refutes the frozen claims about them.

Modelling conventions:

* Wall-clock times (`time.time()`) are modelled as rationals (`ℚ`); Python's
  `int(...)` conversion, which truncates toward zero, is `int_trunc`.
* Each dependency is embedded as a pure step function from the per-identity
  store state and the current time to the pair `(allowed, new state)`.
  Returning `allowed = false` corresponds to the Python function raising
  `HTTPException(429)`; `allowed = true` corresponds to returning
  `{"status": "Allowed"}`.  Store commands issued before the `raise` (for
  instance the `zremrangebyscore` purge of the sliding-window log) take effect
  in the returned state exactly as they do against Redis.
* Redis string counters with TTLs (used by the fixed-window and
  sliding-window-counter dependencies) are modelled by `CounterStore`: a map
  from integer key (the window id embedded in the Redis key) to an optional
  pair of the stored count and an optional absolute expiry deadline.  A key
  whose deadline has passed reads as absent, as in Redis; `kvIncr` and
  `kvExpire` model `INCR` and `EXPIRE`.
* The token-bucket / leaky-bucket hashes are modelled by `Option TBState` /
  `Option LBState` (`none` = the hash does not exist yet).  The first
  `time.time()` call on the absent-state path (line 64) and the `now` read a
  few lines later are modelled as the same instant, matching the injected
  single-clock abstraction of the spec.
* The sliding-window log is a Redis sorted set whose member *is* the
  timestamp (`zadd(key, {now: now})`), hence a `Finset ℚ`.
-/

namespace RateLimiting

/-- Python `int(x)` on a real number truncates toward zero
(`Int.tdiv` is truncating division). -/
def int_trunc (q : ℚ) : ℤ := q.num.tdiv q.den

/-- `int_trunc` is the floor on nonnegative inputs and the ceiling on
negative ones: truncation toward zero. -/
theorem int_trunc_eq (q : ℚ) : int_trunc q = if 0 ≤ q then ⌊q⌋ else ⌈q⌉ := by
  unfold int_trunc
  split
  · next h =>
    rw [Rat.floor_def]
    exact Int.tdiv_eq_ediv (Rat.num_nonneg.2 h) (by positivity)
  · next h =>
    have hnum : 0 ≤ -q.num := by
      have hn : ¬ 0 ≤ q.num := fun hn => h (Rat.num_nonneg.1 hn)
      omega
    calc q.num.tdiv q.den
        = -((-q.num).tdiv q.den) := by rw [Int.neg_tdiv, neg_neg]
      _ = -((-q.num) / (q.den : ℤ)) := by
          rw [Int.tdiv_eq_ediv hnum (by positivity)]
      _ = -((-q).num / ((-q).den : ℤ)) := by
          rw [Rat.num_neg_eq_neg_num, Rat.den_neg_eq_den]
      _ = -⌊-q⌋ := by rw [Rat.floor_def]
      _ = ⌈q⌉ := by rw [Int.floor_neg, neg_neg]

/-- `int(...)` commutes with negation (truncation toward zero is odd). -/
theorem int_trunc_neg (q : ℚ) : int_trunc (-q) = -int_trunc q := by
  unfold int_trunc
  rw [Rat.num_neg_eq_neg_num, Rat.den_neg_eq_den, Int.neg_tdiv]

/-- Truncation sends the interval `(-1, 0]` to `0`. -/
theorem int_trunc_eq_zero (q : ℚ) (h1 : -1 < q) (h2 : q ≤ 0) :
    int_trunc q = 0 := by
  rw [int_trunc_eq]
  split
  · next h =>
    have : q = 0 := le_antisymm h2 h
    rw [this]
    exact Int.floor_zero
  · next h =>
    rw [Int.ceil_eq_zero_iff]
    exact ⟨h1, h2⟩

/-- Truncation of a value at most `-1` stays at most `-1`: the deltas of a
clock regression of one unit or more are genuinely negative. -/
theorem int_trunc_le_neg_one (q : ℚ) (h : q ≤ -1) : int_trunc q ≤ -1 := by
  rw [int_trunc_eq, if_neg (by linarith)]
  exact Int.ceil_le.2 (by exact_mod_cast h)

/-- Python `range(start, stop, step)` for a positive `step`:
the integers `start, start + step, …` that are `< stop`. -/
def pythonRange (start stop step : ℤ) : List ℤ :=
  (List.range (max 0 ((stop - start + step - 1).fdiv step)).toNat).map
    (fun k : ℕ => start + (k : ℤ) * step)

/-! ## Token bucket (`token_bucket_dependency`, lines 34–81) -/

/-- The Redis hash `token_bucket:{user_id}` with fields
`tokens` (an int) and `last_refill_time` (a float). -/
structure TBState where
  tokens : ℤ
  last_refill_time : ℚ
  deriving DecidableEq, Repr

/-- One call of `token_bucket_dependency` (lines 59–81): read the hash
(defaulting to `(max_tokens, now)` when absent), add
`int((now - last_refill_time) * refill_rate)` tokens capped at `max_tokens`,
deny (HTTP 429) if the result is `≤ 0`, otherwise consume one token and write
the hash back with `last_refill_time = now`. -/
def token_bucket_dependency (max_tokens refill_rate : ℤ)
    (st : Option TBState) (now : ℚ) : Bool × Option TBState :=
  let tokens0 : ℤ := match st with | none => max_tokens | some s => s.tokens
  let last_refill_time : ℚ :=
    match st with | none => now | some s => s.last_refill_time
  let tokens_to_add : ℚ := (now - last_refill_time) * (refill_rate : ℚ)
  let tokens : ℤ := min max_tokens (tokens0 + int_trunc tokens_to_add)
  if tokens ≤ 0 then (false, st)
  else (true, some ⟨tokens - 1, now⟩)

/-- Run a sequence of `token_bucket_dependency` calls for one identity,
collecting the allow/deny decisions. -/
def tb_run (max_tokens refill_rate : ℤ) (st : Option TBState) :
    List ℚ → List Bool × Option TBState
  | [] => ([], st)
  | now :: rest =>
    let r := token_bucket_dependency max_tokens refill_rate st now
    let rr := tb_run max_tokens refill_rate r.2 rest
    (r.1 :: rr.1, rr.2)

/-! ## Leaky bucket (`leaky_bucket_dependency`, lines 84–130) -/

/-- The Redis hash `leaky_bucket:{user_id}` with fields
`requests` (an int) and `last_check` (a float). -/
structure LBState where
  requests : ℤ
  last_check : ℚ
  deriving DecidableEq, Repr

/-- One call of `leaky_bucket_dependency` (lines 113–130): read the hash
(defaulting to `(0, now)` when absent), subtract
`int((now - last_check) * leak_rate)` clamped below at `0`, deny (HTTP 429)
if the result is `≥ capacity` (inclusive), otherwise add one request and
write the hash back with `last_check = now`. -/
def leaky_bucket_dependency (capacity : ℤ) (leak_rate : ℚ)
    (st : Option LBState) (now : ℚ) : Bool × Option LBState :=
  let requests0 : ℤ := match st with | none => 0 | some s => s.requests
  let last_check : ℚ := match st with | none => now | some s => s.last_check
  let leaked : ℚ := (now - last_check) * leak_rate
  let requests : ℤ := max 0 (requests0 - int_trunc leaked)
  if capacity ≤ requests then (false, st)
  else (true, some ⟨requests + 1, now⟩)

/-- Run a sequence of `leaky_bucket_dependency` calls for one identity. -/
def lb_run (capacity : ℤ) (leak_rate : ℚ) (st : Option LBState) :
    List ℚ → List Bool × Option LBState
  | [] => ([], st)
  | now :: rest =>
    let r := leaky_bucket_dependency capacity leak_rate st now
    let rr := lb_run capacity leak_rate r.2 rest
    (r.1 :: rr.1, rr.2)

/-! ## Redis string counters with expiry

The fixed-window and sliding-window-counter dependencies store plain string
counters under keys that embed an integer window id, and manage them with
`GET` / `INCR` / `EXPIRE`.  `CounterStore` models that keyspace for one
identity: each live key holds a count and an optional absolute expiry
deadline (`none` = no TTL). -/

/-- The per-identity keyspace of Redis string counters, indexed by the
window id embedded in the key. -/
def CounterStore : Type := ℤ → Option (ℕ × Option ℚ)

/-- The store before any call for the identity. -/
def emptyStore : CounterStore := fun _ => none

/-- Redis `GET` at time `now`: a key whose expiry deadline has passed reads
as absent. -/
def kvGet (st : CounterStore) (now : ℚ) (k : ℤ) : Option ℕ :=
  match st k with
  | none => none
  | some (c, none) => some c
  | some (c, some d) => if now < d then some c else none

/-- Redis `INCR` at time `now`: increments a live key (keeping its TTL) and
(re)creates an absent or expired key with value `1` and no TTL. -/
def kvIncr (st : CounterStore) (now : ℚ) (k : ℤ) : CounterStore :=
  fun j =>
    if j = k then
      match st k with
      | none => some (1, none)
      | some (c, none) => some (c + 1, none)
      | some (c, some d) =>
        if now < d then some (c + 1, some d) else some (1, none)
    else st j

/-- Redis `EXPIRE key ttl` at time `now`: sets the expiry deadline of a live
key to `now + ttl`; a no-op on an absent or already-expired key. -/
def kvExpire (st : CounterStore) (now : ℚ) (k : ℤ) (ttl : ℚ) : CounterStore :=
  fun j =>
    if j = k then
      match st k with
      | none => none
      | some (c, none) => some (c, some (now + ttl))
      | some (c, some d) =>
        if now < d then some (c, some (now + ttl)) else some (c, some d)
    else st j

/-! ## Fixed window counter (`fixed_window_counter_dependency`, lines 133–173) -/

/-- One call of `fixed_window_counter_dependency` (lines 164–173), acting on
the per-identity key family `fixed_window:{user_id}:{window_id}`.  The window
id is `int(time.time() // window_seconds)`; deny (HTTP 429) when the key
exists and holds at least `max_requests`; otherwise `INCR` the key and set
its expiry to `window_seconds`. -/
def fixed_window_counter_dependency (max_requests : ℕ) (window_seconds : ℤ)
    (st : CounterStore) (now : ℚ) : Bool × CounterStore :=
  let wid : ℤ := ⌊now / (window_seconds : ℚ)⌋
  match kvGet st now wid with
  | some c =>
    if max_requests ≤ c then (false, st)
    else (true, kvExpire (kvIncr st now wid) now wid (window_seconds : ℚ))
  | none => (true, kvExpire (kvIncr st now wid) now wid (window_seconds : ℚ))

/-- Run a sequence of `fixed_window_counter_dependency` calls, counting how
many of them are allowed. -/
def fw_run (max_requests : ℕ) (window_seconds : ℤ) (st : CounterStore) :
    List ℚ → ℕ × CounterStore
  | [] => (0, st)
  | now :: rest =>
    let r := fixed_window_counter_dependency max_requests window_seconds st now
    let rr := fw_run max_requests window_seconds r.2 rest
    ((if r.1 then 1 else 0) + rr.1, rr.2)

/-! ## Sliding window log (`sliding_window_log_dependency`, lines 176–220) -/

/-- One call of `sliding_window_log_dependency` (lines 207–220), acting on
the sorted set `sliding_window_log:{user_id}` whose members are the admitted
timestamps (`zadd(key, {now: now})` uses the timestamp itself as the member,
scored by itself), modelled as a `Finset ℚ`.
`zremrangebyscore(key, 0, now - window_seconds)` removes the members whose
score lies in the closed interval `[0, now - window_seconds]`; deny
(HTTP 429) if at least `max_requests` members remain, else insert `now`. -/
def sliding_window_log_dependency (max_requests : ℕ) (window_seconds : ℤ)
    (log : Finset ℚ) (now : ℚ) : Bool × Finset ℚ :=
  let purged := log.filter (fun s => ¬ (0 ≤ s ∧ s ≤ now - (window_seconds : ℚ)))
  if max_requests ≤ purged.card then (false, purged)
  else (true, insert now purged)

/-- The sliding-window-log states reachable from the empty sorted set by
calls with a fixed configuration (arbitrary call times). -/
inductive ReachableLog (max_requests : ℕ) (window_seconds : ℤ) : Finset ℚ → Prop
  | empty : ReachableLog max_requests window_seconds ∅
  | step (log : Finset ℚ) (now : ℚ) :
      ReachableLog max_requests window_seconds log →
      ReachableLog max_requests window_seconds
        (sliding_window_log_dependency max_requests window_seconds log now).2

/-! ## Sliding window counter (`sliding_window_counter_dependency`, lines 223–277) -/

/-- One call of `sliding_window_counter_dependency` (lines 256–277), acting
on the key family `sliding_window_counter:{user_id}:{sub_window_id}`.
`now = int(time.time())`; the summed keys are
`timestamp // sub_window_seconds` for `timestamp` in the Python range
`range(now - window_seconds, now, sub_window_seconds)` (Python `//` is
`Int.fdiv`); a missing key counts as `0`.  Deny (HTTP 429) if the sum is at
least `max_requests`; otherwise `INCR` the key of the current sub-window
`now // sub_window_seconds` and set its expiry to `window_seconds`. -/
def sliding_window_counter_dependency (max_requests : ℕ)
    (window_seconds sub_window_seconds : ℤ)
    (st : CounterStore) (nowq : ℚ) : Bool × CounterStore :=
  let now : ℤ := int_trunc nowq
  let curId : ℤ := now.fdiv sub_window_seconds
  let window_start : ℤ := now - window_seconds
  let total : ℕ :=
    ((pythonRange window_start now sub_window_seconds).map
      (fun timestamp =>
        (kvGet st nowq (timestamp.fdiv sub_window_seconds)).getD 0)).sum
  if max_requests ≤ total then (false, st)
  else (true, kvExpire (kvIncr st nowq curId) nowq curId (window_seconds : ℚ))

/-- The list of sub-window ids whose counters one call of
`sliding_window_counter_dependency` reads and sums: the code maps
`timestamp // sub_window_seconds` over
`range(now - window_seconds, now, sub_window_seconds)`. -/
def swc_read_ids (now window_seconds sub_window_seconds : ℤ) : List ℤ :=
  (pythonRange (now - window_seconds) now sub_window_seconds).map
    (fun timestamp => timestamp.fdiv sub_window_seconds)

/-- When `sub ∣ window`, the summed sub-window ids are exactly the
`window / sub` ids `now.fdiv sub - window / sub + k`, `k < window / sub` —
i.e. the ids strictly before the current sub-window id `now.fdiv sub`. -/
theorem swc_read_ids_eq (now window sub : ℤ) (hsub : 0 < sub)
    (hdvd : sub ∣ window) :
    swc_read_ids now window sub =
      (List.range (window / sub).toNat).map
        (fun k : ℕ => now.fdiv sub - window / sub + (k : ℤ)) := by
  obtain ⟨w, rfl⟩ := hdvd
  have hsub0 : sub ≠ 0 := ne_of_gt hsub
  have hwdiv : sub * w / sub = w := Int.mul_ediv_cancel_left w hsub0
  have hcount : (now - (now - sub * w) + sub - 1).fdiv sub = w := by
    rw [Int.fdiv_eq_ediv _ hsub.le]
    have harr : now - (now - sub * w) + sub - 1 = (sub - 1) + w * sub := by ring
    rw [harr, Int.add_mul_ediv_right _ _ hsub0,
      Int.ediv_eq_zero_of_lt (by omega) (by omega), zero_add]
  have hmax : (max 0 w).toNat = w.toNat := by
    rcases le_total 0 w with h | h
    · rw [max_eq_right h]
    · rw [max_eq_left h]
      omega
  unfold swc_read_ids pythonRange
  rw [List.map_map, hcount, hwdiv, hmax]
  apply List.map_congr_left
  intro k _
  show ((now - sub * w) + (k : ℤ) * sub).fdiv sub = now.fdiv sub - w + k
  have harr : now - sub * w + (k : ℤ) * sub = (now + (-w) * sub) + (k : ℤ) * sub := by
    ring
  rw [Int.fdiv_eq_ediv _ hsub.le, Int.fdiv_eq_ediv _ hsub.le, harr,
    Int.add_mul_ediv_right _ _ hsub0, Int.add_mul_ediv_right _ _ hsub0]
  ring

/-- One call of the sliding window counter, rewritten through
`swc_read_ids`: deny and leave the store untouched when the summed counters
reach `max_requests`, otherwise `INCR` + `EXPIRE` the current sub-window. -/
theorem swc_unfold (max_requests : ℕ) (window_seconds sub_window_seconds : ℤ)
    (st : CounterStore) (nowq : ℚ) :
    sliding_window_counter_dependency max_requests window_seconds
        sub_window_seconds st nowq =
      if max_requests ≤
          ((swc_read_ids (int_trunc nowq) window_seconds sub_window_seconds).map
            (fun i => (kvGet st nowq i).getD 0)).sum
      then (false, st)
      else (true,
        kvExpire (kvIncr st nowq ((int_trunc nowq).fdiv sub_window_seconds))
          nowq ((int_trunc nowq).fdiv sub_window_seconds) (window_seconds : ℚ)) := by
  simp only [swc_read_ids, List.map_map]
  rfl

/-- The claim of C1 is false on the code: the summation over
`range(now - window_seconds, now, sub_window_seconds)` never reads the
current sub-window's counter.  Concretely, with `max_requests = 1`,
`window_seconds = 10`, `sub_window_seconds = 5` and two calls at `now = 17`
(current sub-window id `17 // 5 = 3`): the first call is allowed and stores
counter `1` for sub-window 3, yet the second call at the same instant is
*also* allowed, although the claim's sum — which includes the current
sub-window id — is `1 ≥ max_requests` and would have to deny. -/
theorem claim_C1_counterexample :
    (sliding_window_counter_dependency 1 10 5 emptyStore 17).1 = true ∧
    (sliding_window_counter_dependency 1 10 5
        (sliding_window_counter_dependency 1 10 5 emptyStore 17).2 17).1 = true ∧
    kvGet (sliding_window_counter_dependency 1 10 5 emptyStore 17).2 17
        ((int_trunc 17).fdiv 5) = some 1 := by
  have hpr : pythonRange 7 17 5 = [7, 12] := by decide
  have hf1 : (7:ℤ).fdiv 5 = 1 := by decide
  have hf2 : (12:ℤ).fdiv 5 = 2 := by decide
  have hf3 : (17:ℤ).fdiv 5 = 3 := by decide
  have hint : int_trunc (17:ℚ) = 17 := by rw [int_trunc_eq]; norm_num
  refine ⟨?_, ?_, ?_⟩ <;>
    norm_num [sliding_window_counter_dependency, kvGet, kvIncr, kvExpire,
      emptyStore, hpr, hint, hf1, hf2, hf3]

/-- C1, amended as the counterexample forces: with
`sub_window_seconds ∣ window_seconds`, the decision sums the stored counters
of the `window_seconds / sub_window_seconds` sub-window ids *strictly
before* the current one (the current sub-window id
`int(now) // sub_window_seconds` is **excluded** from the sum), denies
if and only if that sum is `≥ max_requests` (leaving the store unchanged),
and otherwise increments the current sub-window's counter, sets its expiry
to `window_seconds`, and allows. -/
theorem claim_C1_amended (max_requests : ℕ)
    (window_seconds sub_window_seconds : ℤ)
    (hsub : 0 < sub_window_seconds) (hdvd : sub_window_seconds ∣ window_seconds)
    (st : CounterStore) (nowq : ℚ) :
    ((int_trunc nowq).fdiv sub_window_seconds ∉
        swc_read_ids (int_trunc nowq) window_seconds sub_window_seconds) ∧
    (∀ i ∈ swc_read_ids (int_trunc nowq) window_seconds sub_window_seconds,
        (int_trunc nowq).fdiv sub_window_seconds -
            window_seconds / sub_window_seconds ≤ i ∧
          i < (int_trunc nowq).fdiv sub_window_seconds) ∧
    ((sliding_window_counter_dependency max_requests window_seconds
          sub_window_seconds st nowq).1 = false ↔
      max_requests ≤
        ((swc_read_ids (int_trunc nowq) window_seconds sub_window_seconds).map
          (fun i => (kvGet st nowq i).getD 0)).sum) ∧
    ((sliding_window_counter_dependency max_requests window_seconds
          sub_window_seconds st nowq).1 = false →
      (sliding_window_counter_dependency max_requests window_seconds
          sub_window_seconds st nowq).2 = st) ∧
    ((sliding_window_counter_dependency max_requests window_seconds
          sub_window_seconds st nowq).1 = true →
      (sliding_window_counter_dependency max_requests window_seconds
          sub_window_seconds st nowq).2 =
        kvExpire (kvIncr st nowq ((int_trunc nowq).fdiv sub_window_seconds))
          nowq ((int_trunc nowq).fdiv sub_window_seconds)
          (window_seconds : ℚ)) := by
  have hids := swc_read_ids_eq (int_trunc nowq) window_seconds
    sub_window_seconds hsub hdvd
  refine ⟨?_, ?_, ?_, ?_, ?_⟩
  · rw [hids]
    generalize (int_trunc nowq).fdiv sub_window_seconds = q
    generalize window_seconds / sub_window_seconds = W
    rw [List.mem_map]
    rintro ⟨k, hk, he⟩
    rw [List.mem_range] at hk
    omega
  · rw [hids]
    generalize (int_trunc nowq).fdiv sub_window_seconds = q
    generalize window_seconds / sub_window_seconds = W
    intro i hi
    rw [List.mem_map] at hi
    obtain ⟨k, hk, rfl⟩ := hi
    rw [List.mem_range] at hk
    omega
  · rw [swc_unfold]
    split
    · next h => simpa using h
    · next h => simpa using h
  · rw [swc_unfold]
    split
    · simp
    · simp
  · rw [swc_unfold]
    split
    · simp
    · simp

/-- Witness for `claim_C1_amended` at `max_requests = 1`,
`window_seconds = 10`, `sub_window_seconds = 5`, `now = 17`. -/
theorem claim_C1_witness :
    (0:ℤ) < 5 ∧ (5:ℤ) ∣ 10 ∧ (3:ℤ) ∉ swc_read_ids 17 10 5 := by
  have h := (claim_C1_amended 1 10 5 (by norm_num) (by norm_num)
    emptyStore 17).1
  have hint : int_trunc (17:ℚ) = 17 := by rw [int_trunc_eq]; norm_num
  have hf3 : (17:ℤ).fdiv 5 = 3 := by decide
  rw [hint, hf3] at h
  exact ⟨by norm_num, by norm_num, h⟩

/-! ## Post-read values and unfolding lemmas

Each bucket algorithm first recomputes the bucket as of `now` from the read
state, then compares against the limit.  `tb_tokens` / `lb_requests` name
those post-refill / post-leak values. -/

/-- The token count of the bucket as of `now`, after the refill of
lines 69–72 and before consumption. -/
def tb_tokens (max_tokens refill_rate : ℤ) (st : Option TBState)
    (now : ℚ) : ℤ :=
  min max_tokens
    ((match st with | none => max_tokens | some s => s.tokens) +
      int_trunc
        ((now - (match st with | none => now | some s => s.last_refill_time)) *
          (refill_rate : ℚ)))

/-- The fill level of the leaky bucket as of `now`, after the leak of
lines 118–121. -/
def lb_requests (leak_rate : ℚ) (st : Option LBState) (now : ℚ) : ℤ :=
  max 0
    ((match st with | none => 0 | some s => s.requests) -
      int_trunc
        ((now - (match st with | none => now | some s => s.last_check)) *
          leak_rate))

theorem tb_unfold (max_tokens refill_rate : ℤ) (st : Option TBState)
    (now : ℚ) :
    token_bucket_dependency max_tokens refill_rate st now =
      if tb_tokens max_tokens refill_rate st now ≤ 0 then (false, st)
      else (true, some ⟨tb_tokens max_tokens refill_rate st now - 1, now⟩) :=
  rfl

theorem lb_unfold (capacity : ℤ) (leak_rate : ℚ) (st : Option LBState)
    (now : ℚ) :
    leaky_bucket_dependency capacity leak_rate st now =
      if capacity ≤ lb_requests leak_rate st now then (false, st)
      else (true, some ⟨lb_requests leak_rate st now + 1, now⟩) :=
  rfl

/-- A denied token-bucket call raises before the `hmset`, so the hash is
untouched. -/
theorem tb_denied_state_eq (max_tokens refill_rate : ℤ)
    (st : Option TBState) (now : ℚ)
    (h : (token_bucket_dependency max_tokens refill_rate st now).1 = false) :
    (token_bucket_dependency max_tokens refill_rate st now).2 = st := by
  rw [tb_unfold] at h ⊢
  by_cases hc : tb_tokens max_tokens refill_rate st now ≤ 0
  · rw [if_pos hc]
  · rw [if_neg hc] at h
    simp at h

/-- A denied leaky-bucket call raises before the `hmset`, so the hash is
untouched. -/
theorem lb_denied_state_eq (capacity : ℤ) (leak_rate : ℚ)
    (st : Option LBState) (now : ℚ)
    (h : (leaky_bucket_dependency capacity leak_rate st now).1 = false) :
    (leaky_bucket_dependency capacity leak_rate st now).2 = st := by
  rw [lb_unfold] at h ⊢
  by_cases hc : capacity ≤ lb_requests leak_rate st now
  · rw [if_pos hc]
  · rw [if_neg hc] at h
    simp at h

/-- A denied fixed-window call raises before the `incr`/`expire`, so the
store is untouched. -/
theorem fw_denied_state_eq (max_requests : ℕ) (window_seconds : ℤ)
    (st : CounterStore) (now : ℚ)
    (h : (fixed_window_counter_dependency max_requests window_seconds st
        now).1 = false) :
    (fixed_window_counter_dependency max_requests window_seconds st now).2 =
      st := by
  rcases hg : kvGet st now ⌊now / (window_seconds : ℚ)⌋ with _ | c
  · simp only [fixed_window_counter_dependency, hg] at h
    simp at h
  · simp only [fixed_window_counter_dependency, hg] at h ⊢
    by_cases hc : max_requests ≤ c
    · rw [if_pos hc]
    · rw [if_neg hc] at h
      simp at h

/-- A denied sliding-window-counter call raises before the `incr`/`expire`,
so the store is untouched. -/
theorem swc_denied_state_eq (max_requests : ℕ)
    (window_seconds sub_window_seconds : ℤ) (st : CounterStore) (nowq : ℚ)
    (h : (sliding_window_counter_dependency max_requests window_seconds
        sub_window_seconds st nowq).1 = false) :
    (sliding_window_counter_dependency max_requests window_seconds
        sub_window_seconds st nowq).2 = st := by
  rw [swc_unfold] at h ⊢
  by_cases hc : max_requests ≤
      ((swc_read_ids (int_trunc nowq) window_seconds sub_window_seconds).map
        (fun i => (kvGet st nowq i).getD 0)).sum
  · rw [if_pos hc]
  · rw [if_neg hc] at h
    simp at h

/-- Any state reachable from the empty sorted set under a fixed
configuration holds at most `max_requests` timestamps: the purge only
removes entries and an insertion happens only when fewer than
`max_requests` remain. -/
theorem swl_card_le (max_requests : ℕ) (window_seconds : ℤ)
    (log : Finset ℚ)
    (h : ReachableLog max_requests window_seconds log) :
    log.card ≤ max_requests := by
  induction h with
  | empty => simp
  | step log now _ ih =>
    unfold sliding_window_log_dependency
    by_cases hc : max_requests ≤
        (log.filter
          (fun s => ¬ (0 ≤ s ∧ s ≤ now - (window_seconds : ℚ)))).card
    · rw [if_pos hc]
      exact le_trans (Finset.card_filter_le _ _) ih
    · rw [if_neg hc]
      exact le_trans (Finset.card_insert_le _ _)
        (Nat.succ_le_of_lt (lt_of_not_le hc))

/-- On reachable states a denied sliding-window-log call leaves the sorted
set unchanged: a denial means at least `max_requests` entries survived the
purge, and since reachable logs never exceed `max_requests` entries the
purge removed nothing. -/
theorem swl_denied_state_eq (max_requests : ℕ) (window_seconds : ℤ)
    (log : Finset ℚ) (now : ℚ)
    (hreach : ReachableLog max_requests window_seconds log)
    (h : (sliding_window_log_dependency max_requests window_seconds log
        now).1 = false) :
    (sliding_window_log_dependency max_requests window_seconds log now).2 =
      log := by
  have hcard := swl_card_le max_requests window_seconds log hreach
  unfold sliding_window_log_dependency at h ⊢
  by_cases hc : max_requests ≤
      (log.filter
        (fun s => ¬ (0 ≤ s ∧ s ≤ now - (window_seconds : ℚ)))).card
  · rw [if_pos hc]
    exact Finset.eq_of_subset_of_card_le (Finset.filter_subset _ _)
      (le_trans hcard hc)
  · rw [if_neg hc] at h
    simp at h

/-- C2: for every one of the five algorithms and every denied call (on a
reachable state, in the sliding-window-log case), the persisted state after
the call equals the state before it — the rejected attempt is not recorded —
and repeating the identical call immediately yields the same denial.  For
the four counter/bucket algorithms the denial path issues no store write at
all; for the sliding-window log the `zremrangebyscore` purge that precedes
the denial removes nothing, because states reachable from empty never hold
more than `max_requests` entries while a denial requires at least
`max_requests` surviving entries. -/
theorem claim_C2_denied_never_mutates :
    (∀ (max_tokens refill_rate : ℤ) (st : Option TBState) (now : ℚ),
        (token_bucket_dependency max_tokens refill_rate st now).1 = false →
        (token_bucket_dependency max_tokens refill_rate st now).2 = st ∧
          token_bucket_dependency max_tokens refill_rate
              ((token_bucket_dependency max_tokens refill_rate st now).2)
              now =
            (false, st)) ∧
    (∀ (capacity : ℤ) (leak_rate : ℚ) (st : Option LBState) (now : ℚ),
        (leaky_bucket_dependency capacity leak_rate st now).1 = false →
        (leaky_bucket_dependency capacity leak_rate st now).2 = st ∧
          leaky_bucket_dependency capacity leak_rate
              ((leaky_bucket_dependency capacity leak_rate st now).2) now =
            (false, st)) ∧
    (∀ (max_requests : ℕ) (window_seconds : ℤ) (st : CounterStore)
        (now : ℚ),
        (fixed_window_counter_dependency max_requests window_seconds st
            now).1 = false →
        (fixed_window_counter_dependency max_requests window_seconds st
            now).2 = st ∧
          fixed_window_counter_dependency max_requests window_seconds
              ((fixed_window_counter_dependency max_requests window_seconds
                st now).2) now =
            (false, st)) ∧
    (∀ (max_requests : ℕ) (window_seconds sub_window_seconds : ℤ)
        (st : CounterStore) (nowq : ℚ),
        (sliding_window_counter_dependency max_requests window_seconds
            sub_window_seconds st nowq).1 = false →
        (sliding_window_counter_dependency max_requests window_seconds
            sub_window_seconds st nowq).2 = st ∧
          sliding_window_counter_dependency max_requests window_seconds
              sub_window_seconds
              ((sliding_window_counter_dependency max_requests window_seconds
                sub_window_seconds st nowq).2) nowq =
            (false, st)) ∧
    (∀ (max_requests : ℕ) (window_seconds : ℤ) (log : Finset ℚ) (now : ℚ),
        ReachableLog max_requests window_seconds log →
        (sliding_window_log_dependency max_requests window_seconds log
            now).1 = false →
        (sliding_window_log_dependency max_requests window_seconds log
            now).2 = log ∧
          sliding_window_log_dependency max_requests window_seconds
              ((sliding_window_log_dependency max_requests window_seconds log
                now).2) now =
            (false, log)) := by
  refine ⟨?_, ?_, ?_, ?_, ?_⟩
  · intro max_tokens refill_rate st now h
    have he := tb_denied_state_eq max_tokens refill_rate st now h
    exact ⟨he, by rw [he]; exact Prod.ext h he⟩
  · intro capacity leak_rate st now h
    have he := lb_denied_state_eq capacity leak_rate st now h
    exact ⟨he, by rw [he]; exact Prod.ext h he⟩
  · intro max_requests window_seconds st now h
    have he := fw_denied_state_eq max_requests window_seconds st now h
    exact ⟨he, by rw [he]; exact Prod.ext h he⟩
  · intro max_requests window_seconds sub_window_seconds st nowq h
    have he := swc_denied_state_eq max_requests window_seconds
      sub_window_seconds st nowq h
    exact ⟨he, by rw [he]; exact Prod.ext h he⟩
  · intro max_requests window_seconds log now hreach h
    have he := swl_denied_state_eq max_requests window_seconds log now
      hreach h
    exact ⟨he, by rw [he]; exact Prod.ext h he⟩

/-- Witness for `claim_C2_denied_never_mutates`: a denied token-bucket call
(empty bucket, `now = 0`) and a denied sliding-window-log call (reachable
one-entry log `{0}`, `max_requests = 1`, call at `now = 5`), with the
unchanged states evaluated. -/
theorem claim_C2_witness :
    (token_bucket_dependency 10 1 (some ⟨0, 0⟩) 0).1 = false ∧
    (token_bucket_dependency 10 1 (some ⟨0, 0⟩) 0).2 = some ⟨0, 0⟩ ∧
    token_bucket_dependency 10 1
        ((token_bucket_dependency 10 1 (some ⟨0, 0⟩) 0).2) 0 =
      (false, some ⟨0, 0⟩) ∧
    (sliding_window_log_dependency 1 10 {0} 5).1 = false ∧
    (sliding_window_log_dependency 1 10 {0} 5).2 = {0} := by
  have hdtb : (token_bucket_dependency 10 1 (some ⟨0, 0⟩) 0).1 = false := by
    norm_num [token_bucket_dependency, int_trunc_eq]
  have h0 : (sliding_window_log_dependency 1 10 (∅ : Finset ℚ) 0).2 = {0} := by
    norm_num [sliding_window_log_dependency]
  have hreach : ReachableLog 1 10 ({0} : Finset ℚ) :=
    h0 ▸ ReachableLog.step ∅ 0 ReachableLog.empty
  have hdswl :
      (sliding_window_log_dependency 1 10 ({0} : Finset ℚ) 5).1 = false := by
    norm_num [sliding_window_log_dependency, Finset.filter_singleton]
  obtain ⟨htb1, htb2⟩ :=
    claim_C2_denied_never_mutates.1 10 1 (some ⟨0, 0⟩) 0 hdtb
  obtain ⟨hl1, _⟩ :=
    claim_C2_denied_never_mutates.2.2.2.2 1 10 {0} 5 hreach hdswl
  exact ⟨hdtb, htb1, htb2, hdswl, hl1⟩

/-- Boundedness invariant for the persisted token-bucket hash: absent, or
holding a token count in `[0, max_tokens]`. -/
def TBInv (max_tokens : ℤ) : Option TBState → Prop
  | none => True
  | some s => 0 ≤ s.tokens ∧ s.tokens ≤ max_tokens

/-- One token-bucket call preserves `TBInv`: a write only happens with a
positive post-refill count that the `min` caps at `max_tokens`. -/
theorem tb_step_inv (max_tokens refill_rate : ℤ) (st : Option TBState)
    (now : ℚ) (h : TBInv max_tokens st) :
    TBInv max_tokens (token_bucket_dependency max_tokens refill_rate st now).2 := by
  rw [tb_unfold]
  by_cases hc : tb_tokens max_tokens refill_rate st now ≤ 0
  · rw [if_pos hc]
    exact h
  · rw [if_neg hc]
    have h1 : tb_tokens max_tokens refill_rate st now ≤ max_tokens :=
      min_le_left _ _
    constructor
    · show (0:ℤ) ≤ tb_tokens max_tokens refill_rate st now - 1
      omega
    · show tb_tokens max_tokens refill_rate st now - 1 ≤ max_tokens
      omega

/-- `TBInv` is preserved along any sequence of calls. -/
theorem tb_run_inv (max_tokens refill_rate : ℤ) (st : Option TBState)
    (ts : List ℚ) (h : TBInv max_tokens st) :
    TBInv max_tokens (tb_run max_tokens refill_rate st ts).2 := by
  induction ts generalizing st with
  | nil => exact h
  | cons t rest ih =>
    simp only [tb_run]
    exact ih _ (tb_step_inv max_tokens refill_rate st t h)

/-- C3: for every sequence of token-bucket calls for one identity with
`max_tokens > 0` and `refill_rate > 0`, non-decreasing call times, starting
from absent state, the stored token count `t` satisfies
`0 ≤ t ≤ max_tokens` after every call; and on every allowed call the new
count is strictly below the old count plus the refill term
`int((now - last_refill_time) * refill_rate)` (the count decreases by
exactly the consumed token apart from the refill). -/
theorem claim_C3_token_bucket_bounded (max_tokens refill_rate : ℤ)
    (hm : 0 < max_tokens) (hr : 0 < refill_rate)
    (ts : List ℚ) (hts : ts.Chain' (· ≤ ·)) :
    (∀ (pre suf : List ℚ), ts = pre ++ suf →
      ∀ s : TBState,
        (tb_run max_tokens refill_rate none pre).2 = some s →
        0 ≤ s.tokens ∧ s.tokens ≤ max_tokens) ∧
    (∀ (s0 : TBState) (now : ℚ) (s : TBState),
      (token_bucket_dependency max_tokens refill_rate (some s0) now).1 =
        true →
      (token_bucket_dependency max_tokens refill_rate (some s0) now).2 =
        some s →
      s.tokens + 1 ≤
        s0.tokens +
          int_trunc ((now - s0.last_refill_time) * (refill_rate : ℚ))) := by
  constructor
  · intro pre _ _ s hs
    have hinv := tb_run_inv max_tokens refill_rate none pre True.intro
    rw [hs] at hinv
    exact hinv
  · intro s0 now s hallow hstate
    rw [tb_unfold] at hallow hstate
    by_cases hc : tb_tokens max_tokens refill_rate (some s0) now ≤ 0
    · rw [if_pos hc] at hallow
      simp at hallow
    · rw [if_neg hc] at hstate
      have h1 : tb_tokens max_tokens refill_rate (some s0) now ≤
          s0.tokens +
            int_trunc ((now - s0.last_refill_time) * (refill_rate : ℚ)) :=
        min_le_right _ _
      simp only [Option.some.injEq] at hstate
      rw [← hstate]
      simp only []
      omega

/-- Witness for `claim_C3_token_bucket_bounded`: one call at `t = 0` with
`max_tokens = 10`, `refill_rate = 1` leaves `9` tokens, within bounds. -/
theorem claim_C3_witness : 0 ≤ (9:ℤ) ∧ (9:ℤ) ≤ 10 := by
  have hrun : (tb_run 10 1 none [0]).2 = some ⟨9, 0⟩ := by
    norm_num [tb_run, token_bucket_dependency, int_trunc_eq]
  exact (claim_C3_token_bucket_bounded 10 1 (by norm_num) (by norm_num)
    [0] (by simp)).1 [0] [] rfl ⟨9, 0⟩ hrun

/-- The claim of C4 is false on the code:
`zremrangebyscore(key, 0, now - window_seconds)` removes the **closed**
range `[0, now - window_seconds]`, so an entry with timestamp exactly
`now - window_seconds` is removed, not retained.  Concretely, with
`max_requests = 1`, `window_seconds = 10` and the (reachable) log `{0}`, a
call at `now = 10` is allowed and the entry `0` is gone — whereas under the
claim the entry `0 = now - window_seconds` would be retained, counted, and
the call denied. -/
theorem claim_C4_counterexample :
    (sliding_window_log_dependency 1 10 {0} 10).1 = true ∧
    (0 : ℚ) ∉ (sliding_window_log_dependency 1 10 {0} 10).2 := by
  norm_num [sliding_window_log_dependency, Finset.filter_singleton]

/-- C4, amended as the counterexample forces: the purge removes exactly the
log entries with `0 ≤ s ≤ now - window_seconds` — **inclusive** of the
boundary, so an entry with timestamp exactly `now - window_seconds` is
removed and does not count toward the `max_requests` comparison.  For a log
whose timestamps lie in `[0, now]`, every entry surviving a call lies in the
half-open interval `(now - window_seconds, now]`, and the denial condition
counts exactly the entries strictly greater than `now - window_seconds`. -/
theorem claim_C4_amended (max_requests : ℕ) (window_seconds : ℤ)
    (hw : 0 < window_seconds) (log : Finset ℚ) (now : ℚ)
    (hlog : ∀ s ∈ log, 0 ≤ s ∧ s ≤ now) :
    (0 ≤ now - (window_seconds : ℚ) →
      (now - (window_seconds : ℚ)) ∉
        (sliding_window_log_dependency max_requests window_seconds log
          now).2) ∧
    (∀ s ∈ (sliding_window_log_dependency max_requests window_seconds log
        now).2,
      now - (window_seconds : ℚ) < s ∧ s ≤ now) ∧
    ((sliding_window_log_dependency max_requests window_seconds log now).1 =
        false ↔
      max_requests ≤
        (log.filter (fun s => now - (window_seconds : ℚ) < s)).card) := by
  have hwq : (0 : ℚ) < (window_seconds : ℚ) := by exact_mod_cast hw
  have hfilter :
      log.filter (fun s => ¬ (0 ≤ s ∧ s ≤ now - (window_seconds : ℚ))) =
        log.filter (fun s => now - (window_seconds : ℚ) < s) := by
    apply Finset.filter_congr
    intro x hx
    have h0 : 0 ≤ x := (hlog x hx).1
    simp [h0, not_le]
  unfold sliding_window_log_dependency
  rw [hfilter]
  by_cases hc : max_requests ≤
      (log.filter (fun s => now - (window_seconds : ℚ) < s)).card
  · rw [if_pos hc]
    refine ⟨?_, ?_, ?_⟩
    · intro _ hmem
      rw [Finset.mem_filter] at hmem
      exact absurd hmem.2 (lt_irrefl _)
    · intro s hs
      rw [Finset.mem_filter] at hs
      exact ⟨hs.2, (hlog s hs.1).2⟩
    · simp [hc]
  · rw [if_neg hc]
    refine ⟨?_, ?_, ?_⟩
    · intro hb hmem
      rw [Finset.mem_insert] at hmem
      rcases hmem with he | hmem
      · have : now - (window_seconds : ℚ) < now := by linarith
        exact absurd he (ne_of_lt this)
      · rw [Finset.mem_filter] at hmem
        exact absurd hmem.2 (lt_irrefl _)
    · intro s hs
      rw [Finset.mem_insert] at hs
      rcases hs with rfl | hs
      · constructor
        · linarith
        · exact le_refl s
      · rw [Finset.mem_filter] at hs
        exact ⟨hs.2, (hlog s hs.1).2⟩
    · simp [hc]

/-- Witness for `claim_C4_amended`: `window_seconds = 10`, log `{0}`, call
at `now = 10` — the boundary entry `0` is absent from the resulting log. -/
theorem claim_C4_witness :
    (0 : ℚ) ∉ (sliding_window_log_dependency 3 10 {0} 10).2 := by
  have hlog : ∀ s ∈ ({0} : Finset ℚ), 0 ≤ s ∧ s ≤ 10 := by
    intro s hs
    rw [Finset.mem_singleton] at hs
    subst hs
    norm_num
  have h := (claim_C4_amended 3 10 (by norm_num) {0} 10 hlog).1
    (by norm_num)
  simpa using h

/-- C5: with `capacity = 5`, `leak_rate = 1` and absent state, five calls at
`t = 0` all allow, a sixth call at `t = 0` denies (leaving
`requests = 5, last_check = 0`), and a call at `t = 5` then allows.  In
general a call is denied exactly when the post-leak fill level
`max(0, requests - int((now - last_check) * leak_rate))` is **at least**
`capacity` (the deny condition is inclusive), and an allowed call persists
that fill level plus one together with `last_check = now`. -/
theorem claim_C5_leaky_bucket :
    lb_run 5 1 none [0, 0, 0, 0, 0, 0] =
      ([true, true, true, true, true, false], some ⟨5, 0⟩) ∧
    (leaky_bucket_dependency 5 1 (some ⟨5, 0⟩) 5).1 = true ∧
    (∀ (capacity : ℤ) (leak_rate : ℚ) (st : Option LBState) (now : ℚ),
      ((leaky_bucket_dependency capacity leak_rate st now).1 = false ↔
        capacity ≤ lb_requests leak_rate st now) ∧
      ((leaky_bucket_dependency capacity leak_rate st now).1 = true →
        (leaky_bucket_dependency capacity leak_rate st now).2 =
          some ⟨lb_requests leak_rate st now + 1, now⟩)) := by
  refine ⟨?_, ?_, ?_⟩
  · norm_num [lb_run, leaky_bucket_dependency, int_trunc_eq]
  · norm_num [leaky_bucket_dependency, int_trunc_eq]
  · intro capacity leak_rate st now
    rw [lb_unfold]
    by_cases hc : capacity ≤ lb_requests leak_rate st now
    · rw [if_pos hc]
      exact ⟨by simp [hc], by intro h; simp at h⟩
    · rw [if_neg hc]
      exact ⟨by simp [hc], fun _ => rfl⟩

/-- Witness for `claim_C5_leaky_bucket`: the allowed call at `t = 5` on the
full bucket `(5, 0)` persists `(1, 5)` — everything leaked, one new
request. -/
theorem claim_C5_witness :
    (leaky_bucket_dependency 5 1 (some ⟨5, 0⟩) 5).2 = some ⟨1, 5⟩ := by
  have h := (claim_C5_leaky_bucket.2.2 5 1 (some ⟨5, 0⟩) 5).2
    claim_C5_leaky_bucket.2.1
  rw [h]
  norm_num [lb_requests, int_trunc_eq]

theorem kvIncr_ne (st : CounterStore) (now : ℚ) (k j : ℤ) (h : j ≠ k) :
    kvIncr st now k j = st j := by
  simp [kvIncr, h]

theorem kvExpire_ne (st : CounterStore) (now : ℚ) (k : ℤ) (ttl : ℚ) (j : ℤ)
    (h : j ≠ k) : kvExpire st now k ttl j = st j := by
  simp [kvExpire, h]

/-- The combined `INCR` + `EXPIRE` of the allow path, at the written key:
the live count (or `0`) plus one, with deadline `now + ttl`. -/
theorem kvIncrExpire_at (st : CounterStore) (now : ℚ) (k : ℤ) (ttl : ℚ) :
    kvExpire (kvIncr st now k) now k ttl k =
      some ((kvGet st now k).getD 0 + 1, some (now + ttl)) := by
  rcases hst : st k with _ | ⟨c, _ | d⟩
  · simp [kvExpire, kvIncr, kvGet, hst]
  · simp [kvExpire, kvIncr, kvGet, hst]
  · by_cases hd : now < d
    · simp [kvExpire, kvIncr, kvGet, hst, hd]
    · simp [kvExpire, kvIncr, kvGet, hst, hd]

/-- Invariant for the fixed-window key of window id `a` holding `c`
admitted requests: the key is absent (and `c = 0`) or live with count `c`
and an expiry deadline not before the end `(a+1) * w` of the window. -/
def FWKeyInv (w a : ℤ) (c : ℕ) (st : CounterStore) : Prop :=
  (st a = none ∧ c = 0) ∨
    ∃ d : ℚ, st a = some (c, some d) ∧ (((a + 1) * w : ℤ) : ℚ) ≤ d

/-- One fixed-window call at a time `t` inside window `a`, when the window's
key satisfies `FWKeyInv` with a count below `max_requests`: the call is
allowed, only key `a` changes, and the invariant advances to `c + 1`. -/
theorem fw_step_phase (max_requests : ℕ) (w : ℤ) (hw : 0 < w) (a : ℤ)
    (t : ℚ) (hta : ⌊t / (w : ℚ)⌋ = a) (st : CounterStore) (c : ℕ)
    (hinv : FWKeyInv w a c st) (hlt : c < max_requests) :
    (fixed_window_counter_dependency max_requests w st t).1 = true ∧
    (∀ k, k ≠ a →
      (fixed_window_counter_dependency max_requests w st t).2 k = st k) ∧
    FWKeyInv w a (c + 1)
      (fixed_window_counter_dependency max_requests w st t).2 := by
  have hw' : (0 : ℚ) < (w : ℚ) := by exact_mod_cast hw
  rw [Int.floor_eq_iff] at hta
  have htlo : ((a : ℚ)) * w ≤ t := by
    have := hta.1
    rw [le_div_iff hw'] at this
    exact this
  have hthi : t < ((a : ℚ) + 1) * w := by
    have := hta.2
    rw [div_lt_iff hw'] at this
    exact this
  have hwid : ⌊t / (w : ℚ)⌋ = a := by
    rw [Int.floor_eq_iff]
    exact hta
  have hget : kvGet st t a = match hinv with | _ => kvGet st t a := rfl
  rcases hinv with ⟨hnone, rfl⟩ | ⟨d, hsome, hd⟩
  · have hg : kvGet st t a = none := by simp [kvGet, hnone]
    refine ⟨?_, ?_, ?_⟩
    · simp only [fixed_window_counter_dependency, hwid, hg]
    · intro k hk
      simp only [fixed_window_counter_dependency, hwid, hg]
      rw [kvExpire_ne _ _ _ _ _ hk, kvIncr_ne _ _ _ _ hk]
    · simp only [fixed_window_counter_dependency, hwid, hg]
      refine Or.inr ⟨t + w, ?_, ?_⟩
      · rw [kvIncrExpire_at, hg]
        rfl
      · push_cast
        linarith
  · have hdt : t < d := lt_of_lt_of_le (by push_cast at hd ⊢; linarith) hd
    have hg : kvGet st t a = some c := by simp [kvGet, hsome, hdt]
    refine ⟨?_, ?_, ?_⟩
    · simp only [fixed_window_counter_dependency, hwid, hg]
      rw [if_neg (by omega)]
    · intro k hk
      simp only [fixed_window_counter_dependency, hwid, hg]
      rw [if_neg (by omega)]
      show kvExpire (kvIncr st t a) t a (w : ℚ) k = st k
      rw [kvExpire_ne _ _ _ _ _ hk, kvIncr_ne _ _ _ _ hk]
    · simp only [fixed_window_counter_dependency, hwid, hg]
      rw [if_neg (by omega)]
      refine Or.inr ⟨t + w, ?_, ?_⟩
      · show kvExpire (kvIncr st t a) t a (w : ℚ) a = some (c + 1, some (t + w))
        rw [kvIncrExpire_at, hg]
        rfl
      · push_cast
        linarith

/-- A run of fixed-window calls all falling in window `a`, starting from a
key satisfying `FWKeyInv` with enough budget: every call is allowed, other
keys are untouched, and the invariant accumulates the admitted count. -/
theorem fw_phase (max_requests : ℕ) (w : ℤ) (hw : 0 < w) (a : ℤ)
    (ts : List ℚ) (hts : ∀ t ∈ ts, ⌊t / (w : ℚ)⌋ = a) :
    ∀ (st : CounterStore) (c : ℕ), FWKeyInv w a c st →
      c + ts.length ≤ max_requests →
      (fw_run max_requests w st ts).1 = ts.length ∧
      (∀ k, k ≠ a → (fw_run max_requests w st ts).2 k = st k) ∧
      FWKeyInv w a (c + ts.length) (fw_run max_requests w st ts).2 := by
  induction ts with
  | nil =>
    intro st c hinv _
    exact ⟨rfl, fun _ _ => rfl, hinv⟩
  | cons t rest ih =>
    intro st c hinv hle
    have hle' : c + rest.length + 1 ≤ max_requests := by
      rw [List.length_cons] at hle
      omega
    have hta := hts t (by simp)
    have htrest : ∀ x ∈ rest, ⌊x / (w : ℚ)⌋ = a := by
      intro x hx
      exact hts x (by simp [hx])
    obtain ⟨hallow, hother, hinv1⟩ :=
      fw_step_phase max_requests w hw a t hta st c hinv (by omega)
    obtain ⟨hcnt, hother2, hinv2⟩ := ih htrest
      (fixed_window_counter_dependency max_requests w st t).2 (c + 1) hinv1
      (by omega)
    refine ⟨?_, ?_, ?_⟩
    · have hstep : (fw_run max_requests w st (t :: rest)).1 =
          (if (fixed_window_counter_dependency max_requests w st t).1
            then 1 else 0) +
          (fw_run max_requests w
            (fixed_window_counter_dependency max_requests w st t).2 rest).1 :=
        rfl
      rw [hstep, hallow, hcnt, List.length_cons, if_pos rfl]
      omega
    · intro k hk
      simp only [fw_run]
      rw [hother2 k hk, hother k hk]
    · simp only [fw_run, List.length_cons]
      have : c + (rest.length + 1) = c + 1 + rest.length := by omega
      rw [this]
      exact hinv2

/-- Splitting the admitted count of a run of fixed-window calls. -/
theorem fw_run_append_cnt (max_requests : ℕ) (w : ℤ) (l1 : List ℚ) :
    ∀ (st : CounterStore) (l2 : List ℚ),
      (fw_run max_requests w st (l1 ++ l2)).1 =
        (fw_run max_requests w st l1).1 +
          (fw_run max_requests w (fw_run max_requests w st l1).2 l2).1 := by
  induction l1 with
  | nil =>
    intro st l2
    simp [fw_run]
  | cons t rest ih =>
    intro st l2
    simp only [List.cons_append, List.append_eq, fw_run]
    rw [ih]
    omega

/-- C6: from the empty store, any `≤ max_requests` fixed-window calls whose
times fall in window id `a` followed by any `≤ max_requests` calls whose
times fall in window id `a + 1` are all allowed — up to `2 * max_requests`
admissions across the window boundary, because the new window's key is
fresh and its count starts at `0`.  (The claim's concrete scenario —
`max_requests = 3`, `window_seconds = 60`, three calls just before `t = 60`
and three just after, six admissions — is the witness below.) -/
theorem claim_C6_fixed_window_boundary (max_requests : ℕ) (w : ℤ)
    (hw : 0 < w) (a : ℤ) (l1 l2 : List ℚ)
    (h1 : ∀ t ∈ l1, ⌊t / (w : ℚ)⌋ = a)
    (h2 : ∀ t ∈ l2, ⌊t / (w : ℚ)⌋ = a + 1)
    (hlen1 : l1.length ≤ max_requests) (hlen2 : l2.length ≤ max_requests) :
    (fw_run max_requests w emptyStore (l1 ++ l2)).1 =
      l1.length + l2.length := by
  obtain ⟨hc1, hother1, _⟩ := fw_phase max_requests w hw a l1 h1 emptyStore 0
    (Or.inl ⟨rfl, rfl⟩) (by omega)
  have hfresh : (fw_run max_requests w emptyStore l1).2 (a + 1) = none := by
    rw [hother1 (a + 1) (by omega)]
    rfl
  obtain ⟨hc2, _, _⟩ := fw_phase max_requests w hw (a + 1) l2 h2
    (fw_run max_requests w emptyStore l1).2 0 (Or.inl ⟨hfresh, rfl⟩)
    (by omega)
  rw [fw_run_append_cnt max_requests w l1 emptyStore l2, hc1, hc2]

/-- Witness for `claim_C6_fixed_window_boundary`: `max_requests = 3`,
`window_seconds = 60`, three calls just before the boundary at `t = 60` and
three just after — all six are admitted. -/
theorem claim_C6_witness :
    (fw_run 3 60 emptyStore ([59, 59.5, 59.9] ++ [60, 60.5, 61])).1 =
      3 + 3 := by
  have h := claim_C6_fixed_window_boundary 3 60 (by norm_num) 0
    [59, 59.5, 59.9] [60, 60.5, 61]
    (by intro t ht; fin_cases ht <;> norm_num)
    (by intro t ht; fin_cases ht <;> norm_num)
    (by norm_num) (by norm_num)
  simpa using h

/-- The claim of C7 is false on the code: elapsed time is **not** clamped to
zero on clock regression — `int(...)` truncation only absorbs regressions
smaller than one token/leak unit.  Concretely (`refill_rate = leak_rate =
1`): a token-bucket call at `now = 8` on stored state
`(tokens = 5, last_refill_time = 10)` computes the negative refill
`int((8 - 10) * 1) = -2` and persists `tokens = 2` — a decrease of `3`,
beyond the single consumed token; a leaky-bucket call at `now = 5` on
`(requests = 2, last_check = 10)` computes `int((5 - 10) * 1) = -5` and
persists `requests = 8` — an increase of `6`, beyond the single added
request. -/
theorem claim_C7_counterexample :
    token_bucket_dependency 10 1 (some ⟨5, 10⟩) 8 = (true, some ⟨2, 8⟩) ∧
    leaky_bucket_dependency 10 1 (some ⟨2, 10⟩) 5 = (true, some ⟨8, 5⟩) := by
  constructor
  · norm_num [token_bucket_dependency, int_trunc_eq, Int.ceil_neg]
  · norm_num [leaky_bucket_dependency, int_trunc_eq, Int.ceil_neg]

/-- C7, amended as the counterexample forces: the refill / leak delta is
`int(elapsed * rate)`, truncated toward zero, so a clock regression is
absorbed (delta `0`, exactly as if elapsed were clamped to zero) only while
`(last - now) * rate < 1`; a regression of one unit or more produces a
negative delta — the post-refill token count drops below
`min(max_tokens, tokens - 1)` even before the consumed token, and the
post-leak fill level rises to at least `requests + 1` even before the added
request. -/
theorem claim_C7_amended (max_tokens refill_rate : ℤ) (leak_rate : ℚ) :
    (∀ (s : TBState) (now : ℚ),
      0 ≤ (s.last_refill_time - now) * (refill_rate : ℚ) →
      (s.last_refill_time - now) * (refill_rate : ℚ) < 1 →
      tb_tokens max_tokens refill_rate (some s) now =
        min max_tokens s.tokens) ∧
    (∀ (l : LBState) (now : ℚ),
      0 ≤ (l.last_check - now) * leak_rate →
      (l.last_check - now) * leak_rate < 1 →
      lb_requests leak_rate (some l) now = max 0 l.requests) ∧
    (∀ (s : TBState) (now : ℚ),
      1 ≤ (s.last_refill_time - now) * (refill_rate : ℚ) →
      tb_tokens max_tokens refill_rate (some s) now ≤
        min max_tokens (s.tokens - 1)) ∧
    (∀ (l : LBState) (now : ℚ), 0 ≤ l.requests →
      1 ≤ (l.last_check - now) * leak_rate →
      l.requests + 1 ≤ lb_requests leak_rate (some l) now) := by
  refine ⟨?_, ?_, ?_, ?_⟩
  · intro s now h0 h1
    have hz : int_trunc ((now - s.last_refill_time) * (refill_rate : ℚ)) = 0 := by
      apply int_trunc_eq_zero <;> nlinarith
    show min max_tokens
        (s.tokens + int_trunc ((now - s.last_refill_time) * (refill_rate : ℚ))) =
      min max_tokens s.tokens
    rw [hz, add_zero]
  · intro l now h0 h1
    have hz : int_trunc ((now - l.last_check) * leak_rate) = 0 := by
      apply int_trunc_eq_zero <;> nlinarith
    show max 0 (l.requests - int_trunc ((now - l.last_check) * leak_rate)) =
      max 0 l.requests
    rw [hz, sub_zero]
  · intro s now h1
    have hneg : int_trunc ((now - s.last_refill_time) * (refill_rate : ℚ)) ≤ -1 := by
      apply int_trunc_le_neg_one
      nlinarith
    show min max_tokens
        (s.tokens + int_trunc ((now - s.last_refill_time) * (refill_rate : ℚ))) ≤
      min max_tokens (s.tokens - 1)
    exact min_le_min (le_refl _) (by omega)
  · intro l now hr h1
    have hneg : int_trunc ((now - l.last_check) * leak_rate) ≤ -1 := by
      apply int_trunc_le_neg_one
      nlinarith
    show l.requests + 1 ≤
      max 0 (l.requests - int_trunc ((now - l.last_check) * leak_rate))
    have : l.requests + 1 ≤
        l.requests - int_trunc ((now - l.last_check) * leak_rate) := by omega
    exact le_trans this (le_max_right _ _)

/-- Witness for `claim_C7_amended`: a half-second regression
(`last_refill_time = 10`, `now = 19/2`, `refill_rate = 1`) leaves the
post-refill token count at `min 10 5` — the small regression is absorbed. -/
theorem claim_C7_witness : tb_tokens 10 1 (some ⟨5, 10⟩) (19/2) = min 10 5 :=
  (claim_C7_amended 10 1 1).1 ⟨5, 10⟩ (19/2) (by norm_num) (by norm_num)

/-! ## Concurrency model for C8

`token_bucket_dependency` issues its `hmget` read and its `hmset` write as
two separate Redis commands with no transaction, Lua script, or
compare-and-swap around them.  `tb_micro` models one call as a two-step
machine whose atomic units are exactly those two store commands;
`tb_sched` interleaves two concurrent calls under a schedule. -/

/-- Control state of one in-flight token-bucket call: before its `hmget`,
after it (holding the values read), or finished with a decision. -/
inductive TBPhase where
  | start : TBPhase
  | afterRead (tokens0 : ℤ) (last0 : ℚ) : TBPhase
  | done (allowed : Bool) : TBPhase
  deriving DecidableEq, Repr

/-- One store round-trip of a call (lines 59–81): `start` performs the
`hmget` (defaulting to `(max_tokens, now)` on an absent hash); `afterRead`
performs the local refill computation and either finishes denied — no store
write — or performs the `hmset` and finishes allowed. -/
def tb_micro (max_tokens refill_rate : ℤ) (now : ℚ) :
    Option TBState × TBPhase → Option TBState × TBPhase
  | (st, .start) =>
    (st,
      .afterRead (match st with | none => max_tokens | some s => s.tokens)
        (match st with | none => now | some s => s.last_refill_time))
  | (st, .afterRead tokens0 last0) =>
    let tokens : ℤ :=
      min max_tokens (tokens0 + int_trunc ((now - last0) * (refill_rate : ℚ)))
    if tokens ≤ 0 then (st, .done false)
    else (some ⟨tokens - 1, now⟩, .done true)
  | (st, .done b) => (st, .done b)

/-- Interleave two concurrent calls A and B under a schedule: `true` lets A
perform its next store command, `false` lets B. -/
def tb_sched (max_tokens refill_rate : ℤ) (now : ℚ) :
    List Bool → Option TBState × TBPhase × TBPhase →
      Option TBState × TBPhase × TBPhase
  | [], s => s
  | c :: cs, (st, pa, pb) =>
    if c then
      let r := tb_micro max_tokens refill_rate now (st, pa)
      tb_sched max_tokens refill_rate now cs (r.1, r.2, pb)
    else
      let r := tb_micro max_tokens refill_rate now (st, pb)
      tb_sched max_tokens refill_rate now cs (r.1, pa, r.2)

/-- The claim of C8 is false on the code: the read-modify-write sequence is
**not** executed as a single atomic unit — the `hmget` and `hmset` are
independent commands — so `N = 2` concurrent calls for one identity with
`capacity = N/2 = 1` can *both* be admitted: under the interleaving
read-A, read-B, write-A, write-B both calls finish allowed (2 > N/2). -/
theorem claim_C8_counterexample :
    tb_sched 1 1 0 [true, false, true, false] (none, .start, .start) =
      (some ⟨0, 0⟩, .done true, .done true) := by
  norm_num [tb_sched, tb_micro, int_trunc_eq]

/-- C8, amended as the counterexample forces: each call's read and write are
separate atomic store commands (the two-step `tb_micro` machine composed
twice is exactly `token_bucket_dependency`).  Only a serialized schedule
admits exactly `N/2` of `N = 2` calls with `capacity = 1`; the interleaved
schedule read-A, read-B, write-A, write-B admits both — over-admission that
the spec requires designing out is present in this code. -/
theorem claim_C8_amended :
    tb_sched 1 1 0 [true, true, false, false] (none, .start, .start) =
      (some ⟨0, 0⟩, .done true, .done false) ∧
    tb_sched 1 1 0 [true, false, true, false] (none, .start, .start) =
      (some ⟨0, 0⟩, .done true, .done true) ∧
    (∀ (max_tokens refill_rate : ℤ) (st : Option TBState) (now : ℚ),
      tb_micro max_tokens refill_rate now
          (tb_micro max_tokens refill_rate now (st, .start)) =
        ((token_bucket_dependency max_tokens refill_rate st now).2,
          .done (token_bucket_dependency max_tokens refill_rate st now).1)) := by
  refine ⟨?_, ?_, ?_⟩
  · norm_num [tb_sched, tb_micro, int_trunc_eq]
  · norm_num [tb_sched, tb_micro, int_trunc_eq]
  · intro max_tokens refill_rate st now
    rw [tb_unfold]
    show (if tb_tokens max_tokens refill_rate st now ≤ 0 then _ else _) = _
    by_cases hc : tb_tokens max_tokens refill_rate st now ≤ 0
    · rw [if_pos hc, if_pos hc]
    · rw [if_neg hc, if_neg hc]
      rfl

/-- The claim of C9 is false on the code: a denied call raises *before* the
`hmset`, so `last_refill_time` is only persisted on allowed calls, and
elapsed time accumulates across denials.  Concretely, with
`max_tokens = 1`, `refill_rate = 1` and calls at `0, 2/5, 4/5, 6/5` (every
consecutive gap `2/5`, so `gap * refill_rate < 1` throughout): the claim
predicts denial forever after the first call, but the code allows the call
at `6/5` (accumulated elapsed `6/5` since the last *write* at `0` yields
`int(6/5) = 1` token); and after the denied call at `2/5` the stored pair
is still `(0, 0)`, not `(0, 2/5)` — `last_refill_time` was not reset. -/
theorem claim_C9_counterexample :
    tb_run 1 1 none [0, 2/5, 4/5, 6/5] =
      ([true, false, false, true], some ⟨0, 6/5⟩) ∧
    (tb_run 1 1 none [0, 2/5]).2 = some ⟨0, 0⟩ := by
  constructor <;> norm_num [tb_run, token_bucket_dependency, int_trunc_eq]

/-- C9, amended as the counterexample forces: the refill is truncated to
whole tokens, but `last_refill_time` is reset to `now` only on **allowed**
calls — a denied call leaves the stored pair untouched — so elapsed time
accumulates across denied polls and rapid polling cannot starve an
identity: from an exhausted bucket `(0, last)`, a call with
`(now - last) * refill_rate < 1` denies and changes nothing, while a call
with `(now - last) * refill_rate ≥ 1` is allowed again. -/
theorem claim_C9_amended (max_tokens refill_rate : ℤ)
    (hm : 0 < max_tokens) :
    (∀ (st : Option TBState) (now : ℚ) (s : TBState),
      (token_bucket_dependency max_tokens refill_rate st now).1 = true →
      (token_bucket_dependency max_tokens refill_rate st now).2 = some s →
      s.last_refill_time = now) ∧
    (∀ (st : Option TBState) (now : ℚ),
      (token_bucket_dependency max_tokens refill_rate st now).1 = false →
      (token_bucket_dependency max_tokens refill_rate st now).2 = st) ∧
    (∀ (last now : ℚ),
      0 ≤ (now - last) * (refill_rate : ℚ) →
      (now - last) * (refill_rate : ℚ) < 1 →
      token_bucket_dependency max_tokens refill_rate (some ⟨0, last⟩) now =
        (false, some ⟨0, last⟩)) ∧
    (∀ (last now : ℚ),
      1 ≤ (now - last) * (refill_rate : ℚ) →
      (token_bucket_dependency max_tokens refill_rate (some ⟨0, last⟩)
        now).1 = true) := by
  refine ⟨?_, ?_, ?_, ?_⟩
  · intro st now s hallow hst
    rw [tb_unfold] at hallow hst
    by_cases hc : tb_tokens max_tokens refill_rate st now ≤ 0
    · rw [if_pos hc] at hallow
      simp at hallow
    · rw [if_neg hc] at hst
      simp only [Option.some.injEq] at hst
      rw [← hst]
  · intro st now h
    exact tb_denied_state_eq max_tokens refill_rate st now h
  · intro last now h0 h1
    have hz : int_trunc ((now - last) * (refill_rate : ℚ)) = 0 := by
      rw [int_trunc_eq, if_pos h0]
      exact Int.floor_eq_zero_iff.2 ⟨h0, h1⟩
    have htok : tb_tokens max_tokens refill_rate (some ⟨0, last⟩) now = 0 := by
      show min max_tokens (0 + int_trunc ((now - last) * (refill_rate : ℚ))) = 0
      rw [hz]
      exact min_eq_right (by omega)
    rw [tb_unfold, htok, if_pos (le_refl 0)]
  · intro last now h1
    have hge : 1 ≤ int_trunc ((now - last) * (refill_rate : ℚ)) := by
      rw [int_trunc_eq, if_pos (by linarith)]
      exact Int.le_floor.2 (by exact_mod_cast h1)
    have htok : 1 ≤ tb_tokens max_tokens refill_rate (some ⟨0, last⟩) now := by
      show 1 ≤ min max_tokens (0 + int_trunc ((now - last) * (refill_rate : ℚ)))
      exact le_min (by omega) (by omega)
    rw [tb_unfold, if_neg (by omega)]

/-- Witness for `claim_C9_amended`: the exhausted bucket `(0, 0)` with
`refill_rate = 1` is allowed again at `now = 6/5` (elapsed `≥ 1` since the
last write), despite being polled every `2/5` seconds meanwhile. -/
theorem claim_C9_witness :
    (token_bucket_dependency 1 1 (some ⟨0, 0⟩) (6/5)).1 = true :=
  (claim_C9_amended 1 1 (by norm_num)).2.2.2 0 (6/5) (by norm_num)

/-- C10: `zadd(key, {now: now})` uses the timestamp itself as the sorted-set
member, so two allowed calls for one identity at exactly the same timestamp
leave a single log entry: the log after the second allowed call is
*identical* to the log after the first, the cardinality counts distinct
admitted timestamps rather than admitted calls, and the simultaneous second
admission is not counted against `max_requests`. -/
theorem claim_C10_single_entry (max_requests : ℕ) (window_seconds : ℤ)
    (log : Finset ℚ) (now : ℚ)
    (h1 : (sliding_window_log_dependency max_requests window_seconds log
        now).1 = true)
    (h2 : (sliding_window_log_dependency max_requests window_seconds
        (sliding_window_log_dependency max_requests window_seconds log
          now).2 now).1 = true) :
    (sliding_window_log_dependency max_requests window_seconds
        (sliding_window_log_dependency max_requests window_seconds log
          now).2 now).2 =
      (sliding_window_log_dependency max_requests window_seconds log
        now).2 ∧
    now ∈ (sliding_window_log_dependency max_requests window_seconds log
        now).2 := by
  have hL1 : (sliding_window_log_dependency max_requests window_seconds log
      now).2 =
      insert now (log.filter
        (fun s => ¬ (0 ≤ s ∧ s ≤ now - (window_seconds : ℚ)))) := by
    unfold sliding_window_log_dependency at h1 ⊢
    by_cases hc : max_requests ≤
        (log.filter
          (fun s => ¬ (0 ≤ s ∧ s ≤ now - (window_seconds : ℚ)))).card
    · rw [if_pos hc] at h1
      simp at h1
    · rw [if_neg hc]
  rw [hL1] at h2 ⊢
  have hLf : (insert now (log.filter
      (fun s => ¬ (0 ≤ s ∧ s ≤ now - (window_seconds : ℚ))))).filter
        (fun s => ¬ (0 ≤ s ∧ s ≤ now - (window_seconds : ℚ))) =
      insert now (log.filter
        (fun s => ¬ (0 ≤ s ∧ s ≤ now - (window_seconds : ℚ)))) ∨
      (insert now (log.filter
        (fun s => ¬ (0 ≤ s ∧ s ≤ now - (window_seconds : ℚ))))).filter
          (fun s => ¬ (0 ≤ s ∧ s ≤ now - (window_seconds : ℚ))) =
        log.filter (fun s => ¬ (0 ≤ s ∧ s ≤ now - (window_seconds : ℚ))) := by
    rw [Finset.filter_insert]
    by_cases hp : ¬ (0 ≤ now ∧ now ≤ now - (window_seconds : ℚ))
    · rw [if_pos hp, Finset.filter_filter]
      left
      congr 1
      apply Finset.filter_congr
      intro x _
      simp [and_self]
    · rw [if_neg hp, Finset.filter_filter]
      right
      apply Finset.filter_congr
      intro x _
      simp [and_self]
  constructor
  · unfold sliding_window_log_dependency at h2 ⊢
    rcases hLf with hf | hf <;> rw [hf] at h2 ⊢
    · by_cases hc : max_requests ≤
          (insert now (log.filter
            (fun s => ¬ (0 ≤ s ∧ s ≤ now - (window_seconds : ℚ))))).card
      · rw [if_pos hc] at h2
        simp at h2
      · rw [if_neg hc]
        simp [Finset.insert_idem]
    · by_cases hc : max_requests ≤
          (log.filter
            (fun s => ¬ (0 ≤ s ∧ s ≤ now - (window_seconds : ℚ)))).card
      · rw [if_pos hc] at h2
        simp at h2
      · rw [if_neg hc]
  · exact Finset.mem_insert_self now _

/-- Witness for `claim_C10_single_entry`: two allowed calls at `now = 0`
with `max_requests = 2` leave the single-entry log `{0}`. -/
theorem claim_C10_witness :
    (sliding_window_log_dependency 2 10
        (sliding_window_log_dependency 2 10 (∅ : Finset ℚ) 0).2 0).2 =
      (sliding_window_log_dependency 2 10 (∅ : Finset ℚ) 0).2 ∧
    (0 : ℚ) ∈ (sliding_window_log_dependency 2 10 (∅ : Finset ℚ) 0).2 :=
  claim_C10_single_entry 2 10 ∅ 0
    (by norm_num [sliding_window_log_dependency])
    (by
      have hL1 : (sliding_window_log_dependency 2 10 (∅ : Finset ℚ) 0).2 =
          {0} := by
        norm_num [sliding_window_log_dependency]
      rw [hL1]
      norm_num [sliding_window_log_dependency, Finset.filter_singleton])

end RateLimiting
